import Mathlib

/-!
Shallow embedding of the `pyretries` retry orchestration core
(`src/pyretries/strategy.py` and `src/pyretries/retry.py`).

Conventions of the embedding:
* Python exception *classes* are modelled by the finite kind type `ExcKind`,
  with the builtin subclass facts needed by the development recorded in
  `pySubclass`.  Exception *instances* are identified with their kind.
* `random.uniform(0, 1)` draws are modelled by a pre-drawn oracle stream
  (the `jitter` field of the backoff strategy); `time.sleep` and the
  user-supplied hook callbacks are opaque side effects recorded in an
  event trace (`Ev`).  `datetime.now().timestamp()` is an external input
  (the `now` parameter of a run).
* Raising an exception is modelled with `Except`; the error payload of a
  strategy `eval` is the `__cause__` attached to `RetryStrategyExausted`.
* Python `int` fields that are user-supplied limits are `Int`; the attempt
  counters start at 0 and are only ever incremented by 1, so they are `Nat`.
-/

/-- Python exception classes relevant to the development.
`unicodeDecodeError` is a builtin proper subclass of `valueError`. -/
inductive ExcKind where
  | valueError
  | keyError
  | typeError
  | unicodeDecodeError
  deriving DecidableEq, Repr

/-- The builtin proper-subclass facts between the modelled exception
classes (`issubclass(a, b)` with `a ≠ b`). -/
def pySubclass : ExcKind → ExcKind → Bool
  | .unicodeDecodeError, .valueError => true
  | _, _ => false

/-- Python values returned by a retried operation.  `none` is Python's
`None` (also the initial `returned_value` of a retry state); `coroutine`
is an unawaited coroutine object, the result of calling an `async def`
function without awaiting it. -/
inductive Value where
  | none
  | int (n : Int)
  | coroutine
  deriving DecidableEq, Repr

/-- The argument of `Strategy.eval`: `StrategyValueT | Exception | None`
collapses to a returned value (possibly `None`) or an exception. -/
inductive PyVal where
  | val (v : Value)
  | exc (k : ExcKind)
  deriving DecidableEq, Repr

/-- `RetryStrategyExausted from value if isinstance(value, Exception) else None`:
the cause attached when a strategy raises at an already-exhausted state. -/
def excCause : PyVal → Option ExcKind
  | .exc k => some k
  | _ => none

/-- Observable side effects of a run, in program order.
`beforeHooks` / `afterHooks` mark the loops that run the corresponding
user hook lists, `excHook` the `retry_exception_hook` call, `invoke` one
raw invocation of the target operation, `setEndTime` one assignment
`state.end_time = int(datetime.now().timestamp())`, `stratIncr` one
`current_attempt += 1` of a strategy, `sleep` one `time.sleep(d)`, and
`saveState` the `setattr(func, "state", state)` of `save_state`. -/
inductive Ev where
  | beforeHooks
  | invoke
  | excHook (k : ExcKind)
  | afterHooks
  | setEndTime
  | stratIncr
  | sleep (d : ℚ)
  | saveState
  deriving DecidableEq, Repr

/-! ### Strategy classes (`src/pyretries/strategy.py`) -/

/-- `StopAfterAttemptStrategy.__init__`. -/
structure StopAfterAttemptStrategy where
  attempts : Int
  current_attempt : Nat := 0
  deriving DecidableEq, Repr

/-- `StopAfterAttemptStrategy.should_stop`: `current_attempt >= attempts`. -/
def StopAfterAttemptStrategy.should_stop (s : StopAfterAttemptStrategy) : Bool :=
  decide (s.attempts ≤ (s.current_attempt : Int))

/-- `StopAfterAttemptStrategy.eval`. -/
def StopAfterAttemptStrategy.eval (s : StopAfterAttemptStrategy) (value : PyVal) :
    List Ev × Except (Option ExcKind) (StopAfterAttemptStrategy × Bool) :=
  if s.should_stop then
    ([], .error (excCause value))
  else
    ([Ev.stratIncr], .ok ({ s with current_attempt := s.current_attempt + 1 }, true))

/-- `SleepStrategy.__init__` (default `attempts=1`). -/
structure SleepStrategy where
  seconds : ℚ
  attempts : Int := 1
  current_attempt : Nat := 0
  deriving DecidableEq, Repr

/-- `SleepStrategy.should_stop`: `current_attempt >= attempts`. -/
def SleepStrategy.should_stop (s : SleepStrategy) : Bool :=
  decide (s.attempts ≤ (s.current_attempt : Int))

/-- `SleepStrategy.eval`: raise if already stopped, else increment the
counter and then sleep, in that order. -/
def SleepStrategy.eval (s : SleepStrategy) (value : PyVal) :
    List Ev × Except (Option ExcKind) (SleepStrategy × Bool) :=
  if s.should_stop then
    ([], .error (excCause value))
  else
    ([Ev.stratIncr, Ev.sleep s.seconds],
      .ok ({ s with current_attempt := s.current_attempt + 1 }, true))

/-- `NoopStrategy.__init__` (default `attempts=1`). -/
structure NoopStrategy where
  attempts : Int := 1
  current_attempt : Nat := 0
  deriving DecidableEq, Repr

/-- `NoopStrategy.should_stop`: `current_attempt >= attempts`. -/
def NoopStrategy.should_stop (s : NoopStrategy) : Bool :=
  decide (s.attempts ≤ (s.current_attempt : Int))

/-- `NoopStrategy.eval`. -/
def NoopStrategy.eval (s : NoopStrategy) (value : PyVal) :
    List Ev × Except (Option ExcKind) (NoopStrategy × Bool) :=
  if s.should_stop then
    ([], .error (excCause value))
  else
    ([Ev.stratIncr], .ok ({ s with current_attempt := s.current_attempt + 1 }, true))

/-- `StopWhenReturnValueStrategy.__init__` (default `max_attempts=None`). -/
structure StopWhenReturnValueStrategy where
  expected : PyVal
  max_attempts : Option Int := none
  current_attempt : Nat := 0
  deriving DecidableEq, Repr

/-- `StopWhenReturnValueStrategy.should_stop`: only when `max_attempts`
is set and reached; unbounded otherwise. -/
def StopWhenReturnValueStrategy.should_stop (s : StopWhenReturnValueStrategy) : Bool :=
  match s.max_attempts with
  | some m => decide (m ≤ (s.current_attempt : Int))
  | none => false

/-- `StopWhenReturnValueStrategy.eval`: the counter is only incremented
when `max_attempts` is set; returns `not value == self.expected`. -/
def StopWhenReturnValueStrategy.eval (s : StopWhenReturnValueStrategy) (value : PyVal) :
    List Ev × Except (Option ExcKind) (StopWhenReturnValueStrategy × Bool) :=
  if s.should_stop then
    ([], .error (excCause value))
  else
    match s.max_attempts with
    | some _ =>
        ([Ev.stratIncr],
          .ok ({ s with current_attempt := s.current_attempt + 1 },
            if value = s.expected then false else true))
    | none =>
        ([], .ok (s, if value = s.expected then false else true))

/-- `ExponentialBackoffStrategy.__init__`; `jitter` is the oracle stream
of `random.uniform(0, 1)` draws, consumed one per application. -/
structure ExponentialBackoffStrategy where
  max_attempts : Int
  base_delay : ℚ
  current_attempt : Nat := 0
  delay : ℚ := 0
  jitter : List ℚ := []
  deriving DecidableEq, Repr

/-- `ExponentialBackoffStrategy.should_stop`: `current_attempt >= max_attempts`. -/
def ExponentialBackoffStrategy.should_stop (s : ExponentialBackoffStrategy) : Bool :=
  decide (s.max_attempts ≤ (s.current_attempt : Int))

/-- `ExponentialBackoffStrategy.eval`: increment the counter to `k`, set
`delay = base_delay * 2**k + uniform(0, 1)`, then sleep for `delay`. -/
def ExponentialBackoffStrategy.eval (s : ExponentialBackoffStrategy) (value : PyVal) :
    List Ev × Except (Option ExcKind) (ExponentialBackoffStrategy × Bool) :=
  if s.should_stop then
    ([], .error (excCause value))
  else
    let k := s.current_attempt + 1
    let d := s.base_delay * 2 ^ k + s.jitter.headD 0
    ([Ev.stratIncr, Ev.sleep d],
      .ok ({ s with current_attempt := k, delay := d, jitter := s.jitter.tail }, true))

/-- The dynamic dispatch over the `Strategy` interface: the closed set of
strategy classes shipped by the library. -/
inductive Strategy where
  | stopAfterAttempt (s : StopAfterAttemptStrategy)
  | sleep (s : SleepStrategy)
  | noop (s : NoopStrategy)
  | stopWhenReturnValue (s : StopWhenReturnValueStrategy)
  | expBackoff (s : ExponentialBackoffStrategy)
  deriving DecidableEq, Repr

/-- Dispatch of the `should_stop` property. -/
def Strategy.should_stop : Strategy → Bool
  | .stopAfterAttempt s => s.should_stop
  | .sleep s => s.should_stop
  | .noop s => s.should_stop
  | .stopWhenReturnValue s => s.should_stop
  | .expBackoff s => s.should_stop

/-- Dispatch of `eval`, repackaging the per-class result. -/
def Strategy.eval : Strategy → PyVal → List Ev × Except (Option ExcKind) (Strategy × Bool)
  | .stopAfterAttempt s, v =>
      match s.eval v with
      | (evs, .error c) => (evs, .error c)
      | (evs, .ok (s', b)) => (evs, .ok (.stopAfterAttempt s', b))
  | .sleep s, v =>
      match s.eval v with
      | (evs, .error c) => (evs, .error c)
      | (evs, .ok (s', b)) => (evs, .ok (.sleep s', b))
  | .noop s, v =>
      match s.eval v with
      | (evs, .error c) => (evs, .error c)
      | (evs, .ok (s', b)) => (evs, .ok (.noop s', b))
  | .stopWhenReturnValue s, v =>
      match s.eval v with
      | (evs, .error c) => (evs, .error c)
      | (evs, .ok (s', b)) => (evs, .ok (.stopWhenReturnValue s', b))
  | .expBackoff s, v =>
      match s.eval v with
      | (evs, .error c) => (evs, .error c)
      | (evs, .ok (s', b)) => (evs, .ok (.expBackoff s', b))

/-! ### Orchestrator (`src/pyretries/retry.py`) -/

/-- The structural shape of a target operation: an `async def` function
(`inspect.iscoroutinefunction` true) or a plain blocking function. -/
inductive FuncKind where
  | syncFunc
  | coroutineFunc
  deriving DecidableEq, Repr

/-- A target operation: its structural shape together with the outcome of
its `i`-th actual execution (value returned or exception raised). -/
structure Func where
  kind : FuncKind
  behavior : Nat → Except ExcKind Value

/-- `RetryState` (`args`/`kwargs` are forwarded unchanged and are not
modelled; the operation itself is kept for the `save_state` back-reference). -/
structure RetryState where
  func : Func
  start_time : Int
  end_time : Int := 0
  strategy : Option Strategy := none
  current_attempts : Nat := 0
  returned_value : Value := .none
  exception : Option ExcKind := none

/-- `RetryState.raised`: `isinstance(self.exception, Exception)`. -/
def RetryState.raised (st : RetryState) : Bool :=
  st.exception.isSome

/-- `RetryState.clear`. -/
def RetryState.clear (st : RetryState) : RetryState :=
  { st with exception := none, returned_value := .none }

/-- The orchestrator configuration (`BaseRetry.__init__` stores the
strategy list reversed; hooks are opaque callbacks, so only the presence
of `retry_exception_hook` is tracked). -/
structure BaseRetry where
  strategies : List Strategy
  on_exceptions : Option (List ExcKind)
  has_retry_exception_hook : Bool := false

/-- `BaseRetry.__init__`: `self.strategies = list(reversed(strategies))`
and `self.on_exceptions = set(on_exceptions or []) or None`. -/
def BaseRetry.make (strategies : List Strategy) (on_exceptions : Option (List ExcKind))
    (hook : Bool) : BaseRetry :=
  { strategies := strategies.reverse,
    on_exceptions :=
      match on_exceptions with
      | none => none
      | some [] => none
      | some l => some l.dedup,
    has_retry_exception_hook := hook }

/-- The membership test of `BaseRetry.apply`:
`exc in (self.on_exceptions or [exc])` for the exact class `exc` of the
captured exception (no subclass lookup). -/
def BaseRetry.eligible (r : BaseRetry) (k : ExcKind) : Bool :=
  let pool : List ExcKind :=
    match r.on_exceptions with
    | none => [k]
    | some [] => [k]
    | some l => l
  decide (k ∈ pool)

/-- The body of `BaseRetry.exec_strategy` once an active strategy `s` is
in place (`state.strategy = some s`).  The `Bool` is `true` when
`RetryExaustedError` was raised; mutations performed before the raise are
preserved, as in the source. -/
def execStrategyGo (r : BaseRetry) (st : RetryState) (s : Strategy) :
    BaseRetry × RetryState × List Strategy × List Ev × Bool :=
  if s.should_stop then
    (r, st, [], [], true)
  else
    match s.eval (.val st.returned_value) with
    | (evs, .error _) => (r, st, [], evs, true)
    | (evs, .ok (s', _)) =>
        let st := { st with strategy := some s',
                            current_attempts := st.current_attempts + 1 }
        if s'.should_stop then
          (r, { st with strategy := none }, [s'], evs, false)
        else
          (r, st, [], evs, false)

/-- `BaseRetry.exec_strategy`: pull the next strategy from the reversed
list by `pop()` (i.e. from the end) when none is active; raise
`RetryExaustedError` (`Bool` = `true`) when the chain is empty. -/
def BaseRetry.exec_strategy (r : BaseRetry) (st : RetryState) :
    BaseRetry × RetryState × List Strategy × List Ev × Bool :=
  match st.strategy with
  | some s => execStrategyGo r st s
  | none =>
      match r.strategies.getLast? with
      | some s =>
          execStrategyGo { r with strategies := r.strategies.dropLast }
            { st with strategy := some s } s
      | none => (r, st, [], [], true)

/-- The result of `BaseRetry.apply`: return a reapply decision, or raise
`RetryExaustedError` with the given `__cause__`. -/
inductive ApplyResult where
  | cont (should_reapply : Bool)
  | raised (cause : Option ExcKind)
  deriving DecidableEq, Repr

/-- `BaseRetry.apply`: no-op on success; on an ineligible exception raise
`RetryExaustedError from state.exception`; otherwise run the strategy
step and clear the state.  Also returns the strategies retired (cleared
from the active slot) during this step and the strategy events. -/
def BaseRetry.apply (r : BaseRetry) (st : RetryState) :
    BaseRetry × RetryState × List Strategy × List Ev × ApplyResult :=
  match st.exception with
  | none => (r, st, [], [], .cont false)
  | some k =>
      if r.eligible k then
        match BaseRetry.exec_strategy r st with
        | (r', st', ret, evs, true) =>
            (r', st', ret, evs, .raised (if st'.raised then st'.exception else none))
        | (r', st', ret, evs, false) =>
            (r', st'.clear, ret, evs, .cont true)
      else
        (r, st, [], [], .raised (some k))

/-- `Retry.exec`'s invocation of the operation: calling an `async def`
function from blocking code returns its unawaited coroutine object
without executing the body; a plain function runs its `i`-th behavior. -/
def Retry.invoke (f : Func) (i : Nat) : Except ExcKind Value :=
  match f.kind with
  | .coroutineFunc => .ok Value.coroutine
  | .syncFunc => f.behavior i

/-- One `exec` of the blocking orchestrator: `_pre_exec` (before hooks),
the invocation, and `_post_exec` (capture the exception, fire
`retry_exception_hook`, run after hooks, write `end_time`). -/
def Retry.execStep (r : BaseRetry) (f : Func) (st : RetryState) (i : Nat) (now : Int) :
    RetryState × List Ev :=
  match Retry.invoke f i with
  | .ok v =>
      ({ st with returned_value := v, end_time := now },
        [Ev.beforeHooks, Ev.invoke, Ev.afterHooks, Ev.setEndTime])
  | .error k =>
      ({ st with exception := some k, end_time := now },
        [Ev.beforeHooks, Ev.invoke] ++
          (if r.has_retry_exception_hook then [Ev.excHook k] else []) ++
          [Ev.afterHooks, Ev.setEndTime])

/-- Terminal outcome of an orchestration run. -/
inductive RunOutcome where
  | ok (v : Value)
  | retryExausted (cause : Option ExcKind)
  | assertionError
  | outOfFuel
  deriving DecidableEq, Repr

/-- Everything observable about a finished run: the effect trace, the
terminal outcome, the final mutable state, the strategies still stored in
the orchestrator, the strategies retired from the active slot (in
retirement order; the caller keeps references to these objects), and the
state attached to the operation by `save_state`, if that ran. -/
structure RunResult where
  events : List Ev
  outcome : RunOutcome
  state : RetryState
  remaining : List Strategy
  retired : List Strategy
  saved : Option RetryState

/-- `Retry.__call__`'s `while` loop, with explicit fuel (the source loop
can run forever, e.g. with an unbounded match strategy).  `i` counts the
invocations made so far.  On `RetryExaustedError` the raise propagates
and `save_state` is *not* reached; on a normal break `save_state` runs
and `state.returned_value` is returned. -/
def Retry.loop (f : Func) (now : Int) :
    Nat → BaseRetry → RetryState → Nat → RunResult
  | 0, r, st, _ =>
      { events := [], outcome := .outOfFuel, state := st,
        remaining := r.strategies, retired := [], saved := none }
  | Nat.succ fuel, r, st, i =>
      let p := Retry.execStep r f st i now
      let a := BaseRetry.apply r p.1
      match a.2.2.2.2 with
      | .raised cause =>
          { events := p.2 ++ a.2.2.2.1, outcome := .retryExausted cause,
            state := a.2.1, remaining := a.1.strategies,
            retired := a.2.2.1, saved := none }
      | .cont false =>
          { events := p.2 ++ a.2.2.2.1 ++ [Ev.saveState],
            outcome := .ok (a.2.1).returned_value, state := a.2.1,
            remaining := a.1.strategies, retired := a.2.2.1,
            saved := some a.2.1 }
      | .cont true =>
          let rest := Retry.loop f now fuel a.1 a.2.1 (i + 1)
          { events := p.2 ++ a.2.2.2.1 ++ rest.events, outcome := rest.outcome,
            state := rest.state, remaining := rest.remaining,
            retired := a.2.2.1 ++ rest.retired, saved := rest.saved }

/-- `Retry.__call__`: build the initial state and run the loop. -/
def Retry.run (fuel : Nat) (r : BaseRetry) (f : Func) (now : Int) : RunResult :=
  Retry.loop f now fuel r { func := f, start_time := now } 0

/-- One `exec` of the suspend-capable orchestrator: the
`assert inspect.iscoroutinefunction(state.func)` sits before `_pre_exec`,
so with a non-coroutine operation an `AssertionError` escapes (`none`)
before any hook or invocation; otherwise the control flow is that of the
blocking variant, with the operation actually awaited. -/
def AsyncRetry.execStep (r : BaseRetry) (f : Func) (st : RetryState) (i : Nat) (now : Int) :
    Option (RetryState × List Ev) :=
  match f.kind with
  | .syncFunc => none
  | .coroutineFunc =>
      match f.behavior i with
      | .ok v =>
          some ({ st with returned_value := v, end_time := now },
            [Ev.beforeHooks, Ev.invoke, Ev.afterHooks, Ev.setEndTime])
      | .error k =>
          some ({ st with exception := some k, end_time := now },
            [Ev.beforeHooks, Ev.invoke] ++
              (if r.has_retry_exception_hook then [Ev.excHook k] else []) ++
              [Ev.afterHooks, Ev.setEndTime])

/-- `AsyncRetry.__call__`'s loop; identical to the blocking loop except
for `exec`, whose assertion failure aborts the run unretried. -/
def AsyncRetry.loop (f : Func) (now : Int) :
    Nat → BaseRetry → RetryState → Nat → RunResult
  | 0, r, st, _ =>
      { events := [], outcome := .outOfFuel, state := st,
        remaining := r.strategies, retired := [], saved := none }
  | Nat.succ fuel, r, st, i =>
      match AsyncRetry.execStep r f st i now with
      | none =>
          { events := [], outcome := .assertionError, state := st,
            remaining := r.strategies, retired := [], saved := none }
      | some p =>
          let a := BaseRetry.apply r p.1
          match a.2.2.2.2 with
          | .raised cause =>
              { events := p.2 ++ a.2.2.2.1, outcome := .retryExausted cause,
                state := a.2.1, remaining := a.1.strategies,
                retired := a.2.2.1, saved := none }
          | .cont false =>
              { events := p.2 ++ a.2.2.2.1 ++ [Ev.saveState],
                outcome := .ok (a.2.1).returned_value, state := a.2.1,
                remaining := a.1.strategies, retired := a.2.2.1,
                saved := some a.2.1 }
          | .cont true =>
              let rest := AsyncRetry.loop f now fuel a.1 a.2.1 (i + 1)
              { events := p.2 ++ a.2.2.2.1 ++ rest.events, outcome := rest.outcome,
                state := rest.state, remaining := rest.remaining,
                retired := a.2.2.1 ++ rest.retired, saved := rest.saved }

/-- `AsyncRetry.__call__`. -/
def AsyncRetry.run (fuel : Nat) (r : BaseRetry) (f : Func) (now : Int) : RunResult :=
  AsyncRetry.loop f now fuel r { func := f, start_time := now } 0

/-! ### Observations on runs -/

/-- An operation that raises `k` on every invocation. -/
def failFunc (k : ExcKind) : Func :=
  { kind := .syncFunc, behavior := fun _ => .error k }

/-- Number of raw invocations recorded in a trace. -/
def countInvoke (l : List Ev) : Nat :=
  (l.filter fun e => e = Ev.invoke).length

/-- Number of `end_time` writes recorded in a trace. -/
def countEndTime (l : List Ev) : Nat :=
  (l.filter fun e => e = Ev.setEndTime).length

/-- Number of strategy-counter increments recorded in a trace. -/
def countIncr (l : List Ev) : Nat :=
  (l.filter fun e => e = Ev.stratIncr).length

/-- The strategy objects as the caller sees them after a run, in caller
order: retired ones first (they retire in caller order), then the active
one, then those still stored (reversed back to caller order). -/
def RunResult.finalStrategies (res : RunResult) : List Strategy :=
  res.retired ++ res.state.strategy.toList ++ res.remaining.reverse

/-! ### Strategy-level lemmas and claims -/

/-- Iterated application of `NoopStrategy.eval` (the ok-branch ignores
the value, so a fixed argument loses no generality). -/
def NoopStrategy.evalIter (v : PyVal) : Nat → NoopStrategy → Except (Option ExcKind) NoopStrategy
  | 0, s => .ok s
  | Nat.succ j, s =>
      match (s.eval v).2 with
      | .error c => .error c
      | .ok (s', _) => NoopStrategy.evalIter v j s'

theorem noop_evalIter_progress (v : PyVal) (N : Int) :
    ∀ (j c : Nat), (c : Int) + j ≤ N →
      NoopStrategy.evalIter v j { attempts := N, current_attempt := c } =
        .ok { attempts := N, current_attempt := c + j } := by
  intro j
  induction j with
  | zero => intro c _; simp [NoopStrategy.evalIter]
  | succ j ih =>
      intro c hc
      have hlt : ¬ N ≤ (c : Int) := by push_cast at hc ⊢; omega
      have hstop : NoopStrategy.should_stop { attempts := N, current_attempt := c } = false := by
        simp [NoopStrategy.should_stop, hlt]
      have hstep :
          NoopStrategy.eval { attempts := N, current_attempt := c } v =
            ([Ev.stratIncr], .ok ({ attempts := N, current_attempt := c + 1 }, true)) := by
        simp [NoopStrategy.eval, hstop]
      have := ih (c + 1) (by push_cast at hc ⊢; omega)
      simp only [NoopStrategy.evalIter, hstep, this]
      congr 2
      omega

/-- C3: a `NoopStrategy` with limit `N` is not exhausted before its `N`-th
application, each of the first `N` applications succeeds (incrementing the
counter to `N`), `should_stop` is then true, and the `(N+1)`-th
application raises `RetryStrategyExausted` (carrying the value's cause)
without incrementing the counter. -/
theorem noop_exhausts_after_limit (N : Nat) (v w : PyVal) :
    NoopStrategy.evalIter v N { attempts := (N : Int) } =
        .ok { attempts := (N : Int), current_attempt := N } ∧
    (∀ c : Nat, c < N →
        NoopStrategy.should_stop { attempts := (N : Int), current_attempt := c } = false) ∧
    NoopStrategy.should_stop { attempts := (N : Int), current_attempt := N } = true ∧
    NoopStrategy.eval { attempts := (N : Int), current_attempt := N } w =
        ([], .error (excCause w)) := by
  refine ⟨?_, ?_, ?_, ?_⟩
  · have := noop_evalIter_progress v (N : Int) N 0 (by push_cast; omega)
    simpa using this
  · intro c hc
    simp [NoopStrategy.should_stop]
    omega
  · simp [NoopStrategy.should_stop]
  · have hstop : NoopStrategy.should_stop { attempts := (N : Int), current_attempt := N } = true := by
      simp [NoopStrategy.should_stop]
    simp [NoopStrategy.eval, hstop]

/-- Witness for C3 at `N = 2`. -/
theorem noop_exhausts_after_limit_witness :
    NoopStrategy.evalIter (.val .none) 2 { attempts := (2 : Int) } =
        .ok { attempts := (2 : Int), current_attempt := 2 } ∧
    NoopStrategy.eval { attempts := (2 : Int), current_attempt := 2 } (.exc .keyError) =
        ([], .error (some .keyError)) := by
  have h := noop_exhausts_after_limit 2 (.val .none) (.exc .keyError)
  exact ⟨h.1, h.2.2.2⟩

/-- In an event trace, no sleep happens before the first counter
increment (scans left to right; a trace starting with a sleep fails). -/
def noSleepBeforeIncr : List Ev → Bool
  | [] => true
  | Ev.sleep _ :: _ => false
  | Ev.stratIncr :: _ => true
  | _ :: rest => noSleepBeforeIncr rest

/-- C4: for every strategy application, (i) any delay is performed only
after the counter increment; (ii) a `SleepStrategy` with limit 0 raises
on its first application without sleeping; (iii) applying any strategy
whose stop predicate is already true raises, carrying the last failure
(if any) as cause; (iv) a non-exhausted `SleepStrategy` application
increments its counter first and then sleeps `seconds`. -/
theorem strategy_incr_before_delay :
    (∀ (s : Strategy) (v : PyVal), noSleepBeforeIncr (s.eval v).1 = true) ∧
    (∀ (sec : ℚ) (v : PyVal),
        SleepStrategy.eval { seconds := sec, attempts := 0 } v = ([], .error (excCause v))) ∧
    (∀ (s : Strategy) (v : PyVal), s.should_stop = true →
        s.eval v = ([], .error (excCause v))) ∧
    (∀ (s : SleepStrategy) (v : PyVal), s.should_stop = false →
        s.eval v = ([Ev.stratIncr, Ev.sleep s.seconds],
          .ok ({ s with current_attempt := s.current_attempt + 1 }, true))) := by
  refine ⟨?_, ?_, ?_, ?_⟩
  · intro s v
    cases s with
    | stopAfterAttempt s =>
        by_cases h : s.should_stop = true <;>
          simp [Strategy.eval, StopAfterAttemptStrategy.eval, h, noSleepBeforeIncr]
    | sleep s =>
        by_cases h : s.should_stop = true <;>
          simp [Strategy.eval, SleepStrategy.eval, h, noSleepBeforeIncr]
    | noop s =>
        by_cases h : s.should_stop = true <;>
          simp [Strategy.eval, NoopStrategy.eval, h, noSleepBeforeIncr]
    | stopWhenReturnValue s =>
        by_cases h : s.should_stop = true
        · simp [Strategy.eval, StopWhenReturnValueStrategy.eval, h, noSleepBeforeIncr]
        · cases hm : s.max_attempts <;>
            simp [Strategy.eval, StopWhenReturnValueStrategy.eval, h, hm, noSleepBeforeIncr]
    | expBackoff s =>
        by_cases h : s.should_stop = true <;>
          simp [Strategy.eval, ExponentialBackoffStrategy.eval, h, noSleepBeforeIncr]
  · intro sec v
    have hstop : SleepStrategy.should_stop { seconds := sec, attempts := 0 } = true := by
      simp [SleepStrategy.should_stop]
    simp [SleepStrategy.eval, hstop]
  · intro s v hs
    cases s <;>
      simp only [Strategy.should_stop] at hs <;>
      simp [Strategy.eval, StopAfterAttemptStrategy.eval, SleepStrategy.eval,
        NoopStrategy.eval, StopWhenReturnValueStrategy.eval,
        ExponentialBackoffStrategy.eval, hs]
  · intro s v hs
    simp [SleepStrategy.eval, hs]

/-- Witness for C4. -/
theorem strategy_incr_before_delay_witness :
    noSleepBeforeIncr
        ((Strategy.sleep { seconds := 5, attempts := 3 }).eval (.val .none)).1 = true ∧
    SleepStrategy.eval { seconds := 5, attempts := 0 } (.exc .keyError) =
        ([], .error (some .keyError)) ∧
    (Strategy.noop { attempts := 0 }).eval (.exc .keyError) = ([], .error (some .keyError)) := by
  refine ⟨strategy_incr_before_delay.1 _ _, ?_, ?_⟩
  · exact strategy_incr_before_delay.2.1 5 (.exc .keyError)
  · exact strategy_incr_before_delay.2.2.1 (.noop { attempts := 0 }) (.exc .keyError) (by decide)

/-- C5: a non-exhausted application of the exponential-backoff strategy
with base delay `b`, prior count `k - 1` and next jitter draw `j` sleeps
exactly `b * 2 ^ k + j` (with `k` the 1-indexed application number,
computed fresh from the counter alone: the stored previous `delay` does
not influence it), and the strategy is exhausted exactly when
`current_attempt >= max_attempts`. -/
theorem backoff_delay_formula :
    (∀ (s : ExponentialBackoffStrategy) (v : PyVal), s.should_stop = false →
      s.eval v =
        ([Ev.stratIncr,
          Ev.sleep (s.base_delay * 2 ^ (s.current_attempt + 1) + s.jitter.headD 0)],
          .ok ({ s with
                  current_attempt := s.current_attempt + 1,
                  delay := s.base_delay * 2 ^ (s.current_attempt + 1) + s.jitter.headD 0,
                  jitter := s.jitter.tail }, true))) ∧
    (∀ (s : ExponentialBackoffStrategy) (v : PyVal) (d : ℚ),
      (ExponentialBackoffStrategy.eval { s with delay := d } v).1 = (s.eval v).1) ∧
    (∀ s : ExponentialBackoffStrategy,
      s.should_stop = true ↔ s.max_attempts ≤ (s.current_attempt : Int)) := by
  refine ⟨?_, ?_, ?_⟩
  · intro s v hs
    simp [ExponentialBackoffStrategy.eval, hs]
  · intro s v d
    by_cases hs : s.should_stop = true
    · have hs' : ExponentialBackoffStrategy.should_stop { s with delay := d } = true := by
        simpa [ExponentialBackoffStrategy.should_stop] using hs
      simp [ExponentialBackoffStrategy.eval, hs, hs']
    · have hs2 : s.should_stop = false := by simpa using hs
      have hs' : ExponentialBackoffStrategy.should_stop { s with delay := d } = false := by
        simpa [ExponentialBackoffStrategy.should_stop] using hs2
      simp [ExponentialBackoffStrategy.eval, hs2, hs']
  · intro s
    simp [ExponentialBackoffStrategy.should_stop]

/-- Witness for C5: base delay 3, second application (`k = 2`), jitter
draw `1/2`: the slept delay is `3 * 2 ^ 2 + 1/2 = 25/2`. -/
theorem backoff_delay_formula_witness :
    ExponentialBackoffStrategy.eval
        { max_attempts := 5, base_delay := 3, current_attempt := 1,
          delay := 13 / 2, jitter := [1 / 2] } (.val .none) =
      ([Ev.stratIncr, Ev.sleep (25 / 2)],
        .ok ({ max_attempts := 5, base_delay := 3, current_attempt := 2,
               delay := 25 / 2, jitter := [] }, true)) := by
  have h := backoff_delay_formula.1
      { max_attempts := 5, base_delay := 3, current_attempt := 1,
        delay := 13 / 2, jitter := [1 / 2] } (.val .none) (by decide)
  rw [h]
  norm_num

/-! ### Orchestrator-level helper lemmas -/

theorem countInvoke_append (a b : List Ev) :
    countInvoke (a ++ b) = countInvoke a + countInvoke b := by
  simp [countInvoke]

theorem countEndTime_append (a b : List Ev) :
    countEndTime (a ++ b) = countEndTime a + countEndTime b := by
  simp [countEndTime]

theorem countIncr_append (a b : List Ev) :
    countIncr (a ++ b) = countIncr a + countIncr b := by
  simp [countIncr]

/-- Strategy `eval`s never invoke the operation nor write `end_time`. -/
theorem strategyEval_events_local (s : Strategy) (v : PyVal) :
    countInvoke (s.eval v).1 = 0 ∧ countEndTime (s.eval v).1 = 0 := by
  cases s with
  | stopAfterAttempt s =>
      by_cases h : s.should_stop = true <;>
        simp [Strategy.eval, StopAfterAttemptStrategy.eval, h, countInvoke, countEndTime]
  | sleep s =>
      by_cases h : s.should_stop = true <;>
        simp [Strategy.eval, SleepStrategy.eval, h, countInvoke, countEndTime]
  | noop s =>
      by_cases h : s.should_stop = true <;>
        simp [Strategy.eval, NoopStrategy.eval, h, countInvoke, countEndTime]
  | stopWhenReturnValue s =>
      by_cases h : s.should_stop = true
      · simp [Strategy.eval, StopWhenReturnValueStrategy.eval, h, countInvoke, countEndTime]
      · cases hm : s.max_attempts <;>
          simp [Strategy.eval, StopWhenReturnValueStrategy.eval, h, hm, countInvoke, countEndTime]
  | expBackoff s =>
      by_cases h : s.should_stop = true <;>
        simp [Strategy.eval, ExponentialBackoffStrategy.eval, h, countInvoke, countEndTime]

/-- `execStrategyGo` events contain no invocation and no `end_time` write. -/
theorem execStrategyGo_events_local (r : BaseRetry) (st : RetryState) (s : Strategy) :
    countInvoke (execStrategyGo r st s).2.2.2.1 = 0 ∧
    countEndTime (execStrategyGo r st s).2.2.2.1 = 0 := by
  unfold execStrategyGo
  by_cases h : s.should_stop = true
  · rw [if_pos h]
    simp [countInvoke, countEndTime]
  · rw [if_neg h]
    have hev := strategyEval_events_local s (.val st.returned_value)
    rcases heval : s.eval (.val st.returned_value) with ⟨evs, res⟩
    rw [heval] at hev
    cases res with
    | error c => simpa using hev
    | ok p =>
        rcases p with ⟨s', b⟩
        by_cases h2 : s'.should_stop = true <;> simp only [h2] <;> simp <;> simpa using hev

/-- `exec_strategy` events contain no invocation and no `end_time` write. -/
theorem exec_strategy_events_local (r : BaseRetry) (st : RetryState) :
    countInvoke (BaseRetry.exec_strategy r st).2.2.2.1 = 0 ∧
    countEndTime (BaseRetry.exec_strategy r st).2.2.2.1 = 0 := by
  unfold BaseRetry.exec_strategy
  cases hs : st.strategy with
  | some s => exact execStrategyGo_events_local r st s
  | none =>
      cases hl : r.strategies.getLast? with
      | none => simp [countInvoke, countEndTime]
      | some s =>
          exact execStrategyGo_events_local { r with strategies := r.strategies.dropLast }
            { st with strategy := some s } s

/-- The strategy-step events contain no invocation and no `end_time` write. -/
theorem apply_events_local (r : BaseRetry) (st : RetryState) :
    countInvoke (BaseRetry.apply r st).2.2.2.1 = 0 ∧
    countEndTime (BaseRetry.apply r st).2.2.2.1 = 0 := by
  unfold BaseRetry.apply
  cases hx : st.exception with
  | none => simp [countInvoke, countEndTime]
  | some k =>
      by_cases he : r.eligible k = true
      · have h3 := exec_strategy_events_local r st
        rcases hgo2 : BaseRetry.exec_strategy r st with ⟨r', st', ret, evs, raised⟩
        rw [hgo2] at h3
        cases raised <;> simp only [he, hgo2] <;> simp <;> simpa using h3
      · simp only [he]
        simp [countInvoke, countEndTime]

/-- Each `exec` records exactly one invocation and one `end_time` write. -/
theorem execStep_events_count (r : BaseRetry) (f : Func) (st : RetryState) (i : Nat) (now : Int) :
    countEndTime (Retry.execStep r f st i now).2 = 1 ∧
    countInvoke (Retry.execStep r f st i now).2 = 1 ∧
    countIncr (Retry.execStep r f st i now).2 = 0 := by
  unfold Retry.execStep
  cases Retry.invoke f i <;> by_cases h : r.has_retry_exception_hook = true <;>
    simp [h, countInvoke, countEndTime, countIncr]

theorem retry_loop_endtime_per_attempt (f : Func) (now : Int) :
    ∀ (fuel : Nat) (r : BaseRetry) (st : RetryState) (i : Nat),
      countEndTime (Retry.loop f now fuel r st i).events =
        countInvoke (Retry.loop f now fuel r st i).events := by
  intro fuel
  induction fuel with
  | zero => intro r st i; simp [Retry.loop, countInvoke, countEndTime]
  | succ fuel ih =>
      intro r st i
      have hp := execStep_events_count r f st i now
      have hap := apply_events_local r (Retry.execStep r f st i now).1
      rcases ha : BaseRetry.apply r (Retry.execStep r f st i now).1 with
        ⟨r2, st2, ret2, evs2, ares⟩
      rw [ha] at hap
      simp only at hap
      have hsv1 : countEndTime [Ev.saveState] = 0 := by decide
      have hsv2 : countInvoke [Ev.saveState] = 0 := by decide
      cases ares with
      | raised c =>
          simp only [Retry.loop, ha]
          rw [countEndTime_append, countInvoke_append, hp.1, hp.2.1, hap.1, hap.2]
      | cont b =>
          cases b with
          | false =>
              simp only [Retry.loop, ha]
              rw [List.append_assoc, countEndTime_append, countInvoke_append,
                countEndTime_append, countInvoke_append, hp.1, hp.2.1, hap.1, hap.2,
                hsv1, hsv2]
          | true =>
              simp only [Retry.loop, ha]
              rw [List.append_assoc, countEndTime_append, countInvoke_append,
                countEndTime_append, countInvoke_append, hp.1, hp.2.1, hap.1, hap.2,
                ih r2 st2 (i + 1)]

/-- With a coroutine operation, the suspend-capable `exec` performs the
same state update and effects as the blocking `exec` does on a plain
function with the same behavior. -/
theorem asyncExecStep_coroutine (r : BaseRetry) (f : Func) (st : RetryState) (i : Nat)
    (now : Int) (hk : f.kind = .coroutineFunc) :
    AsyncRetry.execStep r f st i now =
      some (Retry.execStep r { kind := .syncFunc, behavior := f.behavior } st i now) := by
  unfold AsyncRetry.execStep Retry.execStep Retry.invoke
  rw [hk]
  cases f.behavior i <;> rfl

/-- With a non-coroutine operation the async loop stops at the assertion:
no hook, no invocation, no state saving, and the failure is an
`AssertionError`, not a `RetryExaustedError`. -/
theorem asyncLoop_assert (f : Func) (now : Int) (fuel i : Nat) (r : BaseRetry)
    (st : RetryState) (hk : f.kind = .syncFunc) :
    AsyncRetry.loop f now (fuel + 1) r st i =
      { events := [], outcome := .assertionError, state := st,
        remaining := r.strategies, retired := [], saved := none } := by
  have hx : AsyncRetry.execStep r f st i now = none := by
    unfold AsyncRetry.execStep
    rw [hk]
  simp only [AsyncRetry.loop, hx]

/-- With a coroutine operation the async loop is step-for-step the
blocking loop on the equi-behaved plain function. -/
theorem asyncLoop_bridge (f : Func) (now : Int) (hk : f.kind = .coroutineFunc) :
    ∀ (fuel : Nat) (r : BaseRetry) (st : RetryState) (i : Nat),
      AsyncRetry.loop f now fuel r st i =
        Retry.loop { kind := .syncFunc, behavior := f.behavior } now fuel r st i := by
  intro fuel
  induction fuel with
  | zero => intro r st i; rfl
  | succ fuel ih =>
      intro r st i
      rcases ha : BaseRetry.apply r
          (Retry.execStep r { kind := .syncFunc, behavior := f.behavior } st i now).1 with
        ⟨r2, st2, ret2, evs2, ares⟩
      simp only [AsyncRetry.loop, Retry.loop, asyncExecStep_coroutine r f st i now hk, ha]
      cases ares with
      | raised c => rfl
      | cont b =>
          cases b with
          | false => rfl
          | true => rw [ih r2 st2 (i + 1)]

/-- C6 counterexample: a run with one `NoopStrategy(1)` against a
permanently failing operation reaches exactly one terminal outcome
(`RetryExaustedError`) but writes `end_time` twice — once per attempt —
so `end_time` is not written exactly once. -/
theorem endtime_not_written_once_cex :
    (Retry.run 2 (BaseRetry.make [.noop { attempts := 1 }] none false)
        (failFunc .keyError) 0).outcome = .retryExausted (some .keyError) ∧
    countEndTime (Retry.run 2 (BaseRetry.make [.noop { attempts := 1 }] none false)
        (failFunc .keyError) 0).events = 2 ∧
    countInvoke (Retry.run 2 (BaseRetry.make [.noop { attempts := 1 }] none false)
        (failFunc .keyError) 0).events = 2 := by
  decide

/-- C6 amended: in every run of either orchestrator, `end_time` is
written exactly once per attempt (at the end of `_post_exec`, after the
after-hooks), so the number of `end_time` writes equals the number of
invocations; in particular the final write happens at the terminal
attempt, but `end_time` is also updated after each non-terminal attempt. -/
theorem endtime_written_once_per_attempt (fuel : Nat) (r r2 : BaseRetry) (f g : Func)
    (now now2 : Int) :
    countEndTime (Retry.run fuel r f now).events =
      countInvoke (Retry.run fuel r f now).events ∧
    countEndTime (AsyncRetry.run fuel r2 g now2).events =
      countInvoke (AsyncRetry.run fuel r2 g now2).events := by
  constructor
  · exact retry_loop_endtime_per_attempt f now fuel r _ 0
  · cases hk : g.kind with
    | syncFunc =>
        cases fuel with
        | zero => simp [AsyncRetry.run, AsyncRetry.loop, countInvoke, countEndTime]
        | succ fuel =>
            unfold AsyncRetry.run
            rw [asyncLoop_assert g now2 fuel 0 r2 _ hk]
            simp [countInvoke, countEndTime]
    | coroutineFunc =>
        unfold AsyncRetry.run
        rw [asyncLoop_bridge g now2 hk fuel r2 _ 0]
        exact retry_loop_endtime_per_attempt _ now2 fuel r2 _ 0

/-- In the blocking loop, the state is attached to the operation
(`save_state`) exactly on the success exit; the `RetryExaustedError`
raise propagates before `save_state` is reached. -/
theorem retry_loop_saved (f : Func) (now : Int) :
    ∀ (fuel : Nat) (r : BaseRetry) (st : RetryState) (i : Nat),
      (Retry.loop f now fuel r st i).saved =
        match (Retry.loop f now fuel r st i).outcome with
        | .ok _ => some (Retry.loop f now fuel r st i).state
        | _ => none := by
  intro fuel
  induction fuel with
  | zero => intro r st i; rfl
  | succ fuel ih =>
      intro r st i
      rcases ha : BaseRetry.apply r (Retry.execStep r f st i now).1 with
        ⟨r2, st2, ret2, evs2, ares⟩
      simp only [Retry.loop, ha]
      cases ares with
      | raised c => rfl
      | cont b =>
          cases b with
          | false => rfl
          | true => exact ih r2 st2 (i + 1)

/-- C8 counterexample: a run that terminates in exhaustion (empty
strategy chain, failing operation) raises `RetryExaustedError` without
ever attaching the Execution Record to the operation handle:
`save_state` is skipped on the raising path. -/
theorem state_not_attached_on_exhaustion_cex :
    (Retry.run 1 (BaseRetry.make [] none false) (failFunc .keyError) 0).outcome =
        .retryExausted (some .keyError) ∧
    (Retry.run 1 (BaseRetry.make [] none false) (failFunc .keyError) 0).saved.isNone = true := by
  decide

/-- C8 amended: the final Execution Record is attached to the operation
handle (via `save_state`) before the run returns on the success path
only; a run that terminates in `RetryExaustedError` propagates the raise
without attaching the record (in both orchestrators). -/
theorem state_attached_only_on_success (fuel : Nat) (r r2 : BaseRetry) (f g : Func)
    (now now2 : Int) :
    (∀ v, (Retry.run fuel r f now).outcome = .ok v →
        (Retry.run fuel r f now).saved = some (Retry.run fuel r f now).state) ∧
    (∀ c, (Retry.run fuel r f now).outcome = .retryExausted c →
        (Retry.run fuel r f now).saved = none) ∧
    (∀ v, (AsyncRetry.run fuel r2 g now2).outcome = .ok v →
        (AsyncRetry.run fuel r2 g now2).saved = some (AsyncRetry.run fuel r2 g now2).state) ∧
    (∀ c, (AsyncRetry.run fuel r2 g now2).outcome = .retryExausted c →
        (AsyncRetry.run fuel r2 g now2).saved = none) := by
  have hs := retry_loop_saved f now fuel r { func := f, start_time := now } 0
  have ha : (AsyncRetry.run fuel r2 g now2).saved =
      match (AsyncRetry.run fuel r2 g now2).outcome with
      | .ok _ => some (AsyncRetry.run fuel r2 g now2).state
      | _ => none := by
    cases hk : g.kind with
    | syncFunc =>
        cases fuel with
        | zero => rfl
        | succ fuel =>
            unfold AsyncRetry.run
            rw [asyncLoop_assert g now2 fuel 0 r2 _ hk]
    | coroutineFunc =>
        unfold AsyncRetry.run
        rw [asyncLoop_bridge g now2 hk fuel r2 _ 0]
        exact retry_loop_saved _ now2 fuel r2 _ 0
  refine ⟨?_, ?_, ?_, ?_⟩
  · intro v hv
    unfold Retry.run at hv ⊢
    rw [hs, hv]
  · intro c hc
    unfold Retry.run at hc ⊢
    rw [hs, hc]
  · intro v hv
    rw [ha, hv]
  · intro c hc
    rw [ha, hc]

/-- Witness for C8 (amended): a first-attempt success attaches the final
record; an exhausted run leaves nothing attached. -/
theorem state_attached_only_on_success_witness :
    (Retry.run 1 (BaseRetry.make [] none false)
        { kind := .syncFunc, behavior := fun _ => .ok (.int 4) } 0).saved =
      some (Retry.run 1 (BaseRetry.make [] none false)
        { kind := .syncFunc, behavior := fun _ => .ok (.int 4) } 0).state ∧
    (Retry.run 1 (BaseRetry.make [] none false) (failFunc .valueError) 0).saved = none := by
  constructor
  · exact (state_attached_only_on_success 1 (BaseRetry.make [] none false)
      (BaseRetry.make [] none false)
      { kind := .syncFunc, behavior := fun _ => .ok (.int 4) }
      (failFunc .valueError) 0 0).1 (.int 4) (by decide)
  · exact (state_attached_only_on_success 1 (BaseRetry.make [] none false)
      (BaseRetry.make [] none false) (failFunc .valueError)
      (failFunc .valueError) 0 0).2.1 (some .valueError) (by decide)

/-- A run whose first failure is not retry-eligible raises
`RetryExaustedError from` that failure right after the first attempt: one
invocation, no strategy event, the stored chain untouched, no active
strategy, nothing attached to the operation. -/
theorem run_ineligible_facts (r : BaseRetry) (k : ExcKind) (fuel : Nat) (now : Int)
    (he : r.eligible k = false) :
    (Retry.run (fuel + 1) r (failFunc k) now).outcome = .retryExausted (some k) ∧
    countInvoke (Retry.run (fuel + 1) r (failFunc k) now).events = 1 ∧
    countIncr (Retry.run (fuel + 1) r (failFunc k) now).events = 0 ∧
    (Retry.run (fuel + 1) r (failFunc k) now).remaining = r.strategies ∧
    (Retry.run (fuel + 1) r (failFunc k) now).retired = [] ∧
    (Retry.run (fuel + 1) r (failFunc k) now).state.strategy = none ∧
    (Retry.run (fuel + 1) r (failFunc k) now).saved = none := by
  have he2 : ¬ r.eligible k = true := by simp [he]
  unfold Retry.run Retry.loop
  by_cases hh : r.has_retry_exception_hook = true <;>
    simp [Retry.execStep, Retry.invoke, failFunc, BaseRetry.apply, he2, hh,
      countInvoke, countIncr]

/-- With a non-empty `on_exceptions` set not containing `k`, the
eligibility test of `BaseRetry.apply` fails for `k`. -/
theorem make_not_eligible (strategies : List Strategy) (allowed : List ExcKind)
    (k : ExcKind) (hook : Bool) (hne : allowed ≠ []) (hnk : k ∉ allowed) :
    (BaseRetry.make strategies (some allowed) hook).eligible k = false := by
  rcases allowed with _ | ⟨a, as⟩
  · exact absurd rfl hne
  · rcases hdd : (a :: as).dedup with _ | ⟨b, bs⟩
    · exact absurd ((List.dedup_eq_nil _).mp hdd) (by simp)
    · have hmem : k ∉ b :: bs := by
        rw [← hdd]
        intro hin
        exact hnk (List.mem_dedup.mp hin)
      simp [BaseRetry.make, BaseRetry.eligible, hdd, hmem]

/-- C2: if the attempt fails with a kind outside the configured non-empty
allowed-failures set, the orchestrator raises `RetryExaustedError` with
that failure as cause immediately after the first attempt: exactly one
invocation, no strategy applied or mutated (no counter increment, the
chain exactly as constructed, counters at their pre-run values), and no
state attached. -/
theorem ineligible_kind_escalates_immediately (strategies : List Strategy)
    (allowed : List ExcKind) (k : ExcKind) (hook : Bool) (fuel : Nat) (now : Int)
    (hne : allowed ≠ []) (hnk : k ∉ allowed) :
    (Retry.run (fuel + 1) (BaseRetry.make strategies (some allowed) hook)
        (failFunc k) now).outcome = .retryExausted (some k) ∧
    countInvoke (Retry.run (fuel + 1) (BaseRetry.make strategies (some allowed) hook)
        (failFunc k) now).events = 1 ∧
    countIncr (Retry.run (fuel + 1) (BaseRetry.make strategies (some allowed) hook)
        (failFunc k) now).events = 0 ∧
    (Retry.run (fuel + 1) (BaseRetry.make strategies (some allowed) hook)
        (failFunc k) now).remaining = strategies.reverse ∧
    (Retry.run (fuel + 1) (BaseRetry.make strategies (some allowed) hook)
        (failFunc k) now).retired = [] ∧
    (Retry.run (fuel + 1) (BaseRetry.make strategies (some allowed) hook)
        (failFunc k) now).state.strategy = none := by
  have h := run_ineligible_facts (BaseRetry.make strategies (some allowed) hook) k fuel now
    (make_not_eligible strategies allowed k hook hne hnk)
  exact ⟨h.1, h.2.1, h.2.2.1, h.2.2.2.1, h.2.2.2.2.1, h.2.2.2.2.2.1⟩

/-- Witness for C2: allowed failures `{ValueError}`, operation raising
`KeyError`, one `NoopStrategy(2)` in the chain. -/
theorem ineligible_kind_escalates_immediately_witness :
    (Retry.run 5 (BaseRetry.make [.noop { attempts := 2 }] (some [.valueError]) false)
        (failFunc .keyError) 0).outcome = .retryExausted (some .keyError) ∧
    countInvoke (Retry.run 5 (BaseRetry.make [.noop { attempts := 2 }]
        (some [.valueError]) false) (failFunc .keyError) 0).events = 1 ∧
    (Retry.run 5 (BaseRetry.make [.noop { attempts := 2 }] (some [.valueError]) false)
        (failFunc .keyError) 0).remaining = [.noop { attempts := 2 }] := by
  have h := ineligible_kind_escalates_immediately [.noop { attempts := 2 }]
    [.valueError] .keyError false 4 0 (by decide) (by decide)
  exact ⟨h.1, h.2.1, by rw [h.2.2.2.1]; rfl⟩

/-- C10: the eligibility test compares the failure's exact class for set
membership: a failure whose class is a proper builtin subclass of an
allowed kind but is not itself a member of the set is not eligible, and
the orchestrator escalates to `RetryExaustedError` immediately after the
first attempt without consulting any strategy. -/
theorem subclass_of_allowed_not_eligible (strategies : List Strategy)
    (allowed : List ExcKind) (k parent : ExcKind) (hook : Bool) (fuel : Nat) (now : Int)
    (hpar : parent ∈ allowed) (hsub : pySubclass k parent = true) (hnk : k ∉ allowed) :
    (Retry.run (fuel + 1) (BaseRetry.make strategies (some allowed) hook)
        (failFunc k) now).outcome = .retryExausted (some k) ∧
    countInvoke (Retry.run (fuel + 1) (BaseRetry.make strategies (some allowed) hook)
        (failFunc k) now).events = 1 ∧
    countIncr (Retry.run (fuel + 1) (BaseRetry.make strategies (some allowed) hook)
        (failFunc k) now).events = 0 ∧
    (Retry.run (fuel + 1) (BaseRetry.make strategies (some allowed) hook)
        (failFunc k) now).remaining = strategies.reverse ∧
    (Retry.run (fuel + 1) (BaseRetry.make strategies (some allowed) hook)
        (failFunc k) now).retired = [] := by
  have hne : allowed ≠ [] := List.ne_nil_of_mem hpar
  have h := run_ineligible_facts (BaseRetry.make strategies (some allowed) hook) k fuel now
    (make_not_eligible strategies allowed k hook hne hnk)
  exact ⟨h.1, h.2.1, h.2.2.1, h.2.2.2.1, h.2.2.2.2.1⟩

/-- Witness for C10: `UnicodeDecodeError` is a proper subclass of
`ValueError`; with `on_exceptions = {ValueError}` it is still escalated
after one attempt. -/
theorem subclass_of_allowed_not_eligible_witness :
    pySubclass .unicodeDecodeError .valueError = true ∧
    (Retry.run 4 (BaseRetry.make [.noop { attempts := 3 }] (some [.valueError]) false)
        (failFunc .unicodeDecodeError) 0).outcome =
      .retryExausted (some .unicodeDecodeError) ∧
    countInvoke (Retry.run 4 (BaseRetry.make [.noop { attempts := 3 }]
        (some [.valueError]) false) (failFunc .unicodeDecodeError) 0).events = 1 := by
  have h := subclass_of_allowed_not_eligible [.noop { attempts := 3 }] [.valueError]
    .unicodeDecodeError .valueError false 3 0 (by decide) (by decide) (by decide)
  exact ⟨by decide, h.1, h.2.1⟩

/-- C7 counterexample: handing a coroutine operation to the blocking
orchestrator does not fail fast with a usage error: the run treats the
unawaited coroutine object as a successful return value on the first
attempt and terminates normally — no distinct usage-error failure is
raised. -/
theorem sync_accepts_coroutine_cex :
    (Retry.run 1 (BaseRetry.make [.noop { attempts := 2 }] none false)
        { kind := .coroutineFunc, behavior := fun _ => .error .keyError } 0).outcome =
      .ok .coroutine ∧
    (Retry.run 1 (BaseRetry.make [.noop { attempts := 2 }] none false)
        { kind := .coroutineFunc, behavior := fun _ => .error .keyError } 0).outcome ≠
      .assertionError ∧
    (∀ c, (Retry.run 1 (BaseRetry.make [.noop { attempts := 2 }] none false)
        { kind := .coroutineFunc, behavior := fun _ => .error .keyError } 0).outcome ≠
      .retryExausted c) := by
  refine ⟨by decide, by decide, ?_⟩
  intro c
  rw [show (Retry.run 1 (BaseRetry.make [.noop { attempts := 2 }] none false)
      { kind := .coroutineFunc, behavior := fun _ => .error .keyError } 0).outcome =
      .ok .coroutine from by decide]
  simp

/-- C7 amended: only the suspend-capable orchestrator checks the
operation's structural shape.  A blocking operation handed to
`AsyncRetry` fails on the first `exec` with an `AssertionError` raised
before any hook or invocation, never retried and never wrapped in
`RetryExaustedError`; a coroutine operation handed to the blocking
`Retry` triggers no usage error at all: the call returns the unawaited
coroutine object as a successful value after a single invocation, with no
strategy consulted. -/
theorem mode_mismatch_checked_only_in_async (r r2 : BaseRetry) (f g : Func)
    (fuel fuel2 : Nat) (now now2 : Int)
    (hf : f.kind = .syncFunc) (hg : g.kind = .coroutineFunc) :
    ((AsyncRetry.run (fuel + 1) r f now).outcome = .assertionError ∧
      (AsyncRetry.run (fuel + 1) r f now).events = [] ∧
      (AsyncRetry.run (fuel + 1) r f now).saved = none ∧
      (AsyncRetry.run (fuel + 1) r f now).remaining = r.strategies) ∧
    ((Retry.run (fuel2 + 1) r2 g now2).outcome = .ok .coroutine ∧
      countInvoke (Retry.run (fuel2 + 1) r2 g now2).events = 1 ∧
      countIncr (Retry.run (fuel2 + 1) r2 g now2).events = 0 ∧
      (Retry.run (fuel2 + 1) r2 g now2).remaining = r2.strategies ∧
      (Retry.run (fuel2 + 1) r2 g now2).retired = []) := by
  constructor
  · unfold AsyncRetry.run
    rw [asyncLoop_assert f now fuel 0 r _ hf]
    exact ⟨rfl, rfl, rfl, rfl⟩
  · have hi : Retry.invoke g 0 = .ok Value.coroutine := by
      unfold Retry.invoke
      rw [hg]
    unfold Retry.run Retry.loop
    simp [Retry.execStep, hi, BaseRetry.apply, countInvoke, countIncr]

/-- Witness for C7 (amended). -/
theorem mode_mismatch_checked_only_in_async_witness :
    (AsyncRetry.run 3 (BaseRetry.make [.noop { attempts := 2 }] none false)
        (failFunc .keyError) 0).outcome = .assertionError ∧
    (Retry.run 3 (BaseRetry.make [.noop { attempts := 2 }] none false)
        { kind := .coroutineFunc, behavior := fun _ => .error .keyError } 0).outcome =
      .ok .coroutine := by
  have h := mode_mismatch_checked_only_in_async
    (BaseRetry.make [.noop { attempts := 2 }] none false)
    (BaseRetry.make [.noop { attempts := 2 }] none false)
    (failFunc .keyError)
    { kind := .coroutineFunc, behavior := fun _ => .error .keyError }
    2 2 0 0 rfl rfl
  exact ⟨h.1.1, h.2.1⟩

/-! ### Chain-composition machinery -/

/-- The events of one failing attempt whose strategy step contributes
`extra` (the hook flag decides whether `retry_exception_hook` fires). -/
def failIterEvs (hook : Bool) (k : ExcKind) (extra : List Ev) : List Ev :=
  [Ev.beforeHooks, Ev.invoke] ++ (if hook then [Ev.excHook k] else []) ++
    [Ev.afterHooks, Ev.setEndTime] ++ extra

/-- `d` copies of an event block, concatenated. -/
def joinN : Nat → List Ev → List Ev
  | 0, _ => []
  | Nat.succ n, e => e ++ joinN n e

/-- Prefix a run result with earlier events and earlier retired strategies. -/
def prependResult (evs : List Ev) (ret : List Strategy) (res : RunResult) : RunResult :=
  { res with events := evs ++ res.events, retired := ret ++ res.retired }

theorem countInvoke_joinN (d : Nat) (e : List Ev) :
    countInvoke (joinN d e) = d * countInvoke e := by
  induction d with
  | zero => simp [joinN, countInvoke]
  | succ d ih => simp [joinN, countInvoke_append, ih, Nat.succ_mul, Nat.add_comm]

theorem countInvoke_failIterEvs (hook : Bool) (k : ExcKind) (extra : List Ev) :
    countInvoke (failIterEvs hook k extra) = 1 + countInvoke extra := by
  cases hook <;> simp [failIterEvs, countInvoke_append, countInvoke] <;> omega

/-- When no strategy is active, the next loop iteration against a failing
eligible operation behaves exactly as if the strategy at the head of the
caller-order chain (the end of the stored reversed list) were already
active. -/
theorem loop_pull (k : ExcKind) (now : Int) (fuel i : Nat) (r : BaseRetry)
    (st : RetryState) (L : List Strategy) (s : Strategy)
    (hst : st.strategy = none) (hr : r.strategies = L ++ [s])
    (he : r.eligible k = true) :
    Retry.loop (failFunc k) now (fuel + 1) r st i =
      Retry.loop (failFunc k) now (fuel + 1) { r with strategies := L }
        { st with strategy := some s } i := by
  have he2 : BaseRetry.eligible { r with strategies := L } k = true := by
    simpa [BaseRetry.eligible] using he
  simp only [Retry.loop, Retry.execStep, Retry.invoke, failFunc, BaseRetry.apply,
    BaseRetry.exec_strategy, he, he2, hst, hr]
  simp [List.getLast?_concat, List.dropLast_concat]

/-- A failing eligible attempt with an already-exhausted active strategy
raises `RetryExaustedError` at once (via `RetryStrategyExausted`); the
exhausted strategy stays in the active slot, untouched. -/
theorem loop_stop_at_entry (k : ExcKind) (now : Int) (fuel i : Nat) (r : BaseRetry)
    (st : RetryState) (s : Strategy)
    (hst : st.strategy = some s) (hs : s.should_stop = true) (he : r.eligible k = true) :
    Retry.loop (failFunc k) now (fuel + 1) r st i =
      { events := failIterEvs r.has_retry_exception_hook k [],
        outcome := .retryExausted (some k),
        state := { st with exception := some k, end_time := now },
        remaining := r.strategies, retired := [], saved := none } := by
  simp only [Retry.loop, Retry.execStep, Retry.invoke, failFunc, BaseRetry.apply,
    BaseRetry.exec_strategy, execStrategyGo, he, hst, hs, failIterEvs]
  simp [RetryState.raised]

/-- A failing eligible attempt with no active strategy and an empty chain
raises `RetryExaustedError` at once. -/
theorem loop_empty_chain (k : ExcKind) (now : Int) (fuel i : Nat) (r : BaseRetry)
    (st : RetryState)
    (hst : st.strategy = none) (hr : r.strategies = []) (he : r.eligible k = true) :
    Retry.loop (failFunc k) now (fuel + 1) r st i =
      { events := failIterEvs r.has_retry_exception_hook k [],
        outcome := .retryExausted (some k),
        state := { st with exception := some k, end_time := now },
        remaining := [], retired := [], saved := none } := by
  simp only [Retry.loop, Retry.execStep, Retry.invoke, failFunc, BaseRetry.apply,
    BaseRetry.exec_strategy, he, hst, hr, failIterEvs]
  simp [RetryState.raised, hr]

/-- Draining one counting strategy: while the active strategy `g c` of a
counting family (each non-exhausted application increments the counter
and emits one `stratIncr`) is not exhausted, each failing eligible
attempt advances it by one; after `e + 1` such attempts it reaches
`g (c + (e + 1))`, is retired from the active slot, and the loop
continues with no active strategy. -/
theorem loop_drain (k : ExcKind) (now : Int) (g : Nat → Strategy)
    (hg : ∀ (c : Nat) (v : Value), (g c).should_stop = false →
        ∃ b : Bool, (g c).eval (.val v) = ([Ev.stratIncr], .ok (g (c + 1), b))) :
    ∀ (e c fuel i : Nat) (r : BaseRetry) (st : RetryState),
      (∀ j : Nat, c ≤ j → j < c + (e + 1) → (g j).should_stop = false) →
      (g (c + (e + 1))).should_stop = true →
      r.eligible k = true →
      st.strategy = some (g c) →
      Retry.loop (failFunc k) now ((e + 1) + fuel) r st i =
        prependResult (joinN (e + 1) (failIterEvs r.has_retry_exception_hook k [Ev.stratIncr]))
          [g (c + (e + 1))]
          (Retry.loop (failFunc k) now fuel r
            { st with strategy := none, exception := none, returned_value := .none,
                      end_time := now, current_attempts := st.current_attempts + (e + 1) }
            (i + (e + 1))) := by
  intro e
  induction e with
  | zero =>
      intro c fuel i r st hb hstop he hst
      have hfuel : (0 + 1) + fuel = fuel + 1 := by omega
      rw [hfuel]
      have hs0 : (g c).should_stop = false := hb c (Nat.le_refl c) (by omega)
      obtain ⟨b, hev⟩ := hg c st.returned_value hs0
      have hstop1 : (g (c + 1)).should_stop = true := by
        have : c + (0 + 1) = c + 1 := by omega
        rw [← this]; exact hstop
      simp only [Retry.loop, Retry.execStep, Retry.invoke, failFunc, BaseRetry.apply,
        BaseRetry.exec_strategy, execStrategyGo, he, hst, hs0, hstop1, hev,
        prependResult, joinN, failIterEvs, RetryState.clear]
      simp
  | succ e ih =>
      intro c fuel i r st hb hstop he hst
      have hfuel : ((e + 1) + 1) + fuel = ((e + 1) + fuel) + 1 := by omega
      rw [hfuel]
      have hs0 : (g c).should_stop = false := hb c (Nat.le_refl c) (by omega)
      obtain ⟨b, hev⟩ := hg c st.returned_value hs0
      have hs1 : (g (c + 1)).should_stop = false := hb (c + 1) (by omega) (by omega)
      have hb' : ∀ j : Nat, c + 1 ≤ j → j < (c + 1) + (e + 1) → (g j).should_stop = false := by
        intro j h1 h2
        exact hb j (by omega) (by omega)
      have hstop' : (g ((c + 1) + (e + 1))).should_stop = true := by
        have : (c + 1) + (e + 1) = c + (e + 1 + 1) := by omega
        rw [this]; exact hstop
      have hrec := ih (c + 1) fuel (i + 1) r
        (RetryState.clear
          { st with strategy := some (g (c + 1)), exception := some k,
                    end_time := now, current_attempts := st.current_attempts + 1 })
        hb' hstop' he (by simp [RetryState.clear])
      simp only [Retry.loop, Retry.execStep, Retry.invoke, failFunc, BaseRetry.apply,
        BaseRetry.exec_strategy, execStrategyGo, he, hst, hs0, hs1, hev]
      simp only [RetryState.clear, failFunc] at hrec ⊢
      simp only [Bool.false_eq_true, if_true, if_false, ite_true, ite_false, eq_self_iff_true]
      simp
      rw [hrec]
      simp only [prependResult, joinN, failIterEvs]
      have harith1 : st.current_attempts + 1 + (e + 1) = st.current_attempts + (e + 1 + 1) := by
        omega
      have harith2 : i + 1 + (e + 1) = i + (e + 1 + 1) := by omega
      have harith3 : c + 1 + (e + 1) = c + (e + 1 + 1) := by omega
      simp [harith1, harith2, harith3]

/-- The `NoopStrategy` family with a fixed limit, indexed by its counter. -/
def noopFam (a : Int) : Nat → Strategy :=
  fun c => .noop { attempts := a, current_attempt := c }

theorem noopFam_step (a : Int) : ∀ (c : Nat) (v : Value),
    (noopFam a c).should_stop = false →
    ∃ b : Bool, (noopFam a c).eval (.val v) = ([Ev.stratIncr], .ok (noopFam a (c + 1), b)) := by
  intro c v h
  refine ⟨true, ?_⟩
  simp only [noopFam, Strategy.should_stop] at h
  simp [noopFam, Strategy.eval, NoopStrategy.eval, h]

theorem noopFam_stop_lt (n c : Nat) (h : c < n) : (noopFam (n : Int) c).should_stop = false := by
  simp only [noopFam, Strategy.should_stop, NoopStrategy.should_stop,
    decide_eq_false_iff_not]
  push_cast
  omega

theorem noopFam_stop_ge (n c : Nat) (h : n ≤ c) : (noopFam (n : Int) c).should_stop = true := by
  simp only [noopFam, Strategy.should_stop, NoopStrategy.should_stop, decide_eq_true_eq]
  push_cast
  omega

/-- `loop_empty_chain` at fuel exactly 1. -/
theorem loop_one_empty (k : ExcKind) (now : Int) (i : Nat) (r : BaseRetry)
    (st : RetryState)
    (hst : st.strategy = none) (hr : r.strategies = []) (he : r.eligible k = true) :
    Retry.loop (failFunc k) now 1 r st i =
      { events := failIterEvs r.has_retry_exception_hook k [],
        outcome := .retryExausted (some k),
        state := { st with exception := some k, end_time := now },
        remaining := [], retired := [], saved := none } :=
  loop_empty_chain k now 0 i r st hst hr he

/-- Exhausting a single trailing `NoopStrategy(M)`: from a state with no
active strategy and exactly `[NoopStrategy(M)]` left in the chain, a
failing eligible operation is invoked `M + 1` more times, the run ends in
`RetryExaustedError from` the failure, and the strategy object the caller
holds ends at `current_attempt = M` (for `M = 0` it is pulled and found
exhausted at entry; otherwise it is drained and retired). -/
theorem loop_last_noop (k : ExcKind) (now : Int) (M i : Nat) (r : BaseRetry)
    (st : RetryState)
    (hst : st.strategy = none) (hr : r.strategies = [noopFam (M : Int) 0])
    (he : r.eligible k = true) (hh : r.has_retry_exception_hook = false) :
    (Retry.loop (failFunc k) now (M + 1) r st i).outcome = .retryExausted (some k) ∧
    countInvoke (Retry.loop (failFunc k) now (M + 1) r st i).events = M + 1 ∧
    (Retry.loop (failFunc k) now (M + 1) r st i).retired ++
        ((Retry.loop (failFunc k) now (M + 1) r st i).state.strategy.toList ++
          (Retry.loop (failFunc k) now (M + 1) r st i).remaining.reverse) =
      [noopFam (M : Int) M] := by
  have he' : BaseRetry.eligible { r with strategies := ([] : List Strategy) } k = true := by
    simpa [BaseRetry.eligible] using he
  cases M with
  | zero =>
      rw [loop_pull k now 0 i r st [] (noopFam ((0 : Nat) : Int) 0) hst (by simpa using hr) he]
      rw [loop_stop_at_entry k now 0 i { r with strategies := ([] : List Strategy) }
        { st with strategy := some (noopFam ((0 : Nat) : Int) 0) }
        (noopFam ((0 : Nat) : Int) 0) rfl (noopFam_stop_ge 0 0 (Nat.le_refl 0)) he']
      refine ⟨rfl, ?_, ?_⟩
      · simp [failIterEvs, countInvoke]
      · simp
  | succ M'' =>
      rw [loop_pull k now (M'' + 1) i r st [] (noopFam ((M'' + 1 : Nat) : Int) 0) hst
        (by simpa using hr) he]
      have hb2 : ∀ j : Nat, 0 ≤ j → j < 0 + (M'' + 1) →
          (noopFam ((M'' + 1 : Nat) : Int) j).should_stop = false := by
        intro j _ hj
        exact noopFam_stop_lt (M'' + 1) j (by omega)
      have hstop2 : (noopFam ((M'' + 1 : Nat) : Int) (0 + (M'' + 1))).should_stop = true := by
        have h0 : 0 + (M'' + 1) = M'' + 1 := by omega
        rw [h0]
        exact noopFam_stop_ge (M'' + 1) (M'' + 1) (Nat.le_refl _)
      rw [loop_drain k now (noopFam ((M'' + 1 : Nat) : Int))
        (noopFam_step ((M'' + 1 : Nat) : Int)) M'' 0 1 i
        { r with strategies := ([] : List Strategy) }
        { st with strategy := some (noopFam ((M'' + 1 : Nat) : Int) 0) }
        hb2 hstop2 he' rfl]
      rw [loop_one_empty k now (i + (M'' + 1))]
      · refine ⟨rfl, ?_, ?_⟩
        · simp only [prependResult]
          rw [countInvoke_append, countInvoke_joinN, countInvoke_failIterEvs,
            countInvoke_failIterEvs]
          simp [countInvoke]
        · simp only [prependResult]
          push_cast
          simp
      · rfl
      · simp
      · exact he'

/-- C1 amended (requires `1 ≤ n`): for a chain `[S1, S2]` of
`NoopStrategy` limits `n, m` in caller order against a permanently
failing eligible operation, the operation is invoked exactly `1 + n + m`
times, the run ends in `RetryExaustedError` with the failure as cause,
and afterwards `S1.current_attempt = n` and `S2.current_attempt = m`;
moreover after the first `n` loop iterations (fuel `n`) `S1` is already
fully exhausted while `S2` still has `current_attempt = 0`, so `S1` is
exhausted before `S2` is ever applied.  (For `n = 0` the claim as stated
fails, see the counterexample: the run exhausts at `S1`'s first
application with a single invocation and `S2` never engages.) -/
theorem chain_of_two_noops (n m : Nat) (k : ExcKind) (now : Int) (hn : 1 ≤ n) :
    (Retry.run (1 + n + m)
        (BaseRetry.make [noopFam (n : Int) 0, noopFam (m : Int) 0] none false)
        (failFunc k) now).outcome = .retryExausted (some k) ∧
    countInvoke (Retry.run (1 + n + m)
        (BaseRetry.make [noopFam (n : Int) 0, noopFam (m : Int) 0] none false)
        (failFunc k) now).events = 1 + n + m ∧
    (Retry.run (1 + n + m)
        (BaseRetry.make [noopFam (n : Int) 0, noopFam (m : Int) 0] none false)
        (failFunc k) now).finalStrategies = [noopFam (n : Int) n, noopFam (m : Int) m] ∧
    (Retry.run n
        (BaseRetry.make [noopFam (n : Int) 0, noopFam (m : Int) 0] none false)
        (failFunc k) now).finalStrategies = [noopFam (n : Int) n, noopFam (m : Int) 0] := by
  obtain ⟨n', rfl⟩ : ∃ n', n = n' + 1 := ⟨n - 1, by omega⟩
  clear hn
  set r0 : BaseRetry :=
    BaseRetry.make [noopFam ((n' + 1 : Nat) : Int) 0, noopFam (m : Int) 0] none false with hr0
  have hr0s : r0.strategies =
      [noopFam (m : Int) 0] ++ [noopFam ((n' + 1 : Nat) : Int) 0] := by
    simp [hr0, BaseRetry.make]
  have he0 : r0.eligible k = true := by
    simp [hr0, BaseRetry.make, BaseRetry.eligible]
  have hhook : r0.has_retry_exception_hook = false := by
    simp [hr0, BaseRetry.make]
  have hb1 : ∀ j : Nat, 0 ≤ j → j < 0 + (n' + 1) →
      (noopFam ((n' + 1 : Nat) : Int) j).should_stop = false := by
    intro j _ hj
    exact noopFam_stop_lt (n' + 1) j (by omega)
  have hstop1 : (noopFam ((n' + 1 : Nat) : Int) (0 + (n' + 1))).should_stop = true := by
    have h0 : 0 + (n' + 1) = n' + 1 := by omega
    rw [h0]
    exact noopFam_stop_ge (n' + 1) (n' + 1) (Nat.le_refl _)
  have he1 : BaseRetry.eligible { r0 with strategies := [noopFam (m : Int) 0] } k = true := by
    simpa [BaseRetry.eligible] using he0
  -- the first n iterations: pull S1 and drain it
  have hphase1 : ∀ fuel : Nat,
      Retry.loop (failFunc k) now ((n' + 1) + fuel) r0
          { func := failFunc k, start_time := now } 0 =
        prependResult
          (joinN (n' + 1) (failIterEvs r0.has_retry_exception_hook k [Ev.stratIncr]))
          [noopFam ((n' + 1 : Nat) : Int) (0 + (n' + 1))]
          (Retry.loop (failFunc k) now fuel { r0 with strategies := [noopFam (m : Int) 0] }
            { func := failFunc k, start_time := now, strategy := none, exception := none,
              returned_value := .none, end_time := now, current_attempts := 0 + (n' + 1) }
            (0 + (n' + 1))) := by
    intro fuel
    have hsplit : (n' + 1) + fuel = (n' + fuel) + 1 := by omega
    rw [hsplit]
    rw [loop_pull k now (n' + fuel) 0 r0 _ [noopFam (m : Int) 0]
      (noopFam ((n' + 1 : Nat) : Int) 0) rfl hr0s he0]
    have hsplit2 : (n' + fuel) + 1 = (n' + 1) + fuel := by omega
    rw [hsplit2]
    have := loop_drain k now (noopFam ((n' + 1 : Nat) : Int))
      (noopFam_step ((n' + 1 : Nat) : Int)) n' 0 fuel 0
      { r0 with strategies := [noopFam (m : Int) 0] }
      { func := failFunc k, start_time := now,
        strategy := some (noopFam ((n' + 1 : Nat) : Int) 0) }
      hb1 hstop1 he1 rfl
    rw [this]
  have hA : Retry.run (1 + (n' + 1) + m) r0 (failFunc k) now =
      prependResult
        (joinN (n' + 1) (failIterEvs r0.has_retry_exception_hook k [Ev.stratIncr]))
        [noopFam ((n' + 1 : Nat) : Int) (0 + (n' + 1))]
        (Retry.loop (failFunc k) now (m + 1) { r0 with strategies := [noopFam (m : Int) 0] }
          { func := failFunc k, start_time := now, strategy := none, exception := none,
            returned_value := .none, end_time := now, current_attempts := 0 + (n' + 1) }
          (0 + (n' + 1))) := by
    have h := hphase1 (m + 1)
    have h0 : (n' + 1) + (m + 1) = 1 + (n' + 1) + m := by omega
    rw [h0] at h
    exact h
  have hsnap : Retry.run (n' + 1) r0 (failFunc k) now =
      prependResult
        (joinN (n' + 1) (failIterEvs r0.has_retry_exception_hook k [Ev.stratIncr]))
        [noopFam ((n' + 1 : Nat) : Int) (0 + (n' + 1))]
        (Retry.loop (failFunc k) now 0 { r0 with strategies := [noopFam (m : Int) 0] }
          { func := failFunc k, start_time := now, strategy := none, exception := none,
            returned_value := .none, end_time := now, current_attempts := 0 + (n' + 1) }
          (0 + (n' + 1))) := by
    have h := hphase1 0
    have h0 : (n' + 1) + 0 = n' + 1 := by omega
    rw [h0] at h
    exact h
  have htail := loop_last_noop k now m (0 + (n' + 1))
    { r0 with strategies := [noopFam (m : Int) 0] }
    { func := failFunc k, start_time := now, strategy := none, exception := none,
      returned_value := .none, end_time := now, current_attempts := 0 + (n' + 1) }
    rfl (by simp) he1 hhook
  refine ⟨?_, ?_, ?_, ?_⟩
  · rw [hA]
    simpa [prependResult] using htail.1
  · rw [hA]
    simp only [prependResult]
    rw [countInvoke_append, countInvoke_joinN, htail.2.1, countInvoke_failIterEvs]
    simp [countInvoke]
    omega
  · rw [hA]
    simp only [RunResult.finalStrategies, prependResult]
    rw [List.append_assoc, List.append_assoc, htail.2.2]
    simp
  · rw [hsnap]
    simp [RunResult.finalStrategies, prependResult, Retry.loop]

/-- Witness for C1 (amended), at the spec's own example `[A(2), B(4)]`:
7 invocations, `A` ends at 2, `B` at 4. -/
theorem chain_of_two_noops_witness :
    (1 ≤ 2 ∧
      (Retry.run (1 + 2 + 4)
          (BaseRetry.make [noopFam ((2 : Nat) : Int) 0, noopFam ((4 : Nat) : Int) 0] none false)
          (failFunc .keyError) 0).outcome = .retryExausted (some .keyError)) ∧
    countInvoke (Retry.run (1 + 2 + 4)
        (BaseRetry.make [noopFam ((2 : Nat) : Int) 0, noopFam ((4 : Nat) : Int) 0] none false)
        (failFunc .keyError) 0).events = 7 ∧
    (Retry.run (1 + 2 + 4)
        (BaseRetry.make [noopFam ((2 : Nat) : Int) 0, noopFam ((4 : Nat) : Int) 0] none false)
        (failFunc .keyError) 0).finalStrategies =
      [noopFam ((2 : Nat) : Int) 2, noopFam ((4 : Nat) : Int) 4] := by
  have h := chain_of_two_noops 2 4 .keyError 0 (by decide)
  exact ⟨⟨by decide, h.1⟩, h.2.1, h.2.2.1⟩

/-- C1 counterexample: with `S1 = NoopStrategy(0)` and
`S2 = NoopStrategy(1)` the operation is invoked only once — not
`1 + n + m = 2` — and at failure time `S2.current_attempt = 0`, not `m`:
the run exhausts at `S1`'s first application and `S2` never engages. -/
theorem chain_of_two_noops_cex :
    (Retry.run (1 + 0 + 1)
        (BaseRetry.make [noopFam 0 0, noopFam 1 0] none false)
        (failFunc .keyError) 0).outcome = .retryExausted (some .keyError) ∧
    countInvoke (Retry.run (1 + 0 + 1)
        (BaseRetry.make [noopFam 0 0, noopFam 1 0] none false)
        (failFunc .keyError) 0).events = 1 ∧
    (1 : Nat) ≠ 1 + 0 + 1 ∧
    (Retry.run (1 + 0 + 1)
        (BaseRetry.make [noopFam 0 0, noopFam 1 0] none false)
        (failFunc .keyError) 0).finalStrategies = [noopFam 0 0, noopFam 1 0] ∧
    ([noopFam 0 0, noopFam 1 0] : List Strategy) ≠ [noopFam 0 0, noopFam 1 1] := by
  decide

/-- The `StopWhenReturnValueStrategy` family with fixed expected value
and `max_attempts`, indexed by its counter. -/
def stopWhenFam (e : PyVal) (mx : Int) : Nat → Strategy :=
  fun c => .stopWhenReturnValue { expected := e, max_attempts := some mx, current_attempt := c }

theorem stopWhenFam_step (e : PyVal) (mx : Int) : ∀ (c : Nat) (v : Value),
    (stopWhenFam e mx c).should_stop = false →
    ∃ b : Bool, (stopWhenFam e mx c).eval (.val v) =
      ([Ev.stratIncr], .ok (stopWhenFam e mx (c + 1), b)) := by
  intro c v h
  refine ⟨if PyVal.val v = e then false else true, ?_⟩
  simp only [stopWhenFam, Strategy.should_stop] at h
  simp [stopWhenFam, Strategy.eval, StopWhenReturnValueStrategy.eval, h]

theorem stopWhenFam_stop_lt (e : PyVal) (mx c : Nat) (h : c < mx) :
    (stopWhenFam e (mx : Int) c).should_stop = false := by
  simp only [stopWhenFam, Strategy.should_stop, StopWhenReturnValueStrategy.should_stop,
    decide_eq_false_iff_not]
  push_cast
  omega

theorem stopWhenFam_stop_ge (e : PyVal) (mx c : Nat) (h : mx ≤ c) :
    (stopWhenFam e (mx : Int) c).should_stop = true := by
  simp only [stopWhenFam, Strategy.should_stop, StopWhenReturnValueStrategy.should_stop,
    decide_eq_true_eq]
  push_cast
  omega

/-- Exhausting a single trailing counting strategy (generalization of
`loop_last_noop` to any family whose non-exhausted `eval` increments the
counter and emits one `stratIncr`, whatever boolean it returns). -/
theorem loop_last_counting (k : ExcKind) (now : Int) (g : Nat → Strategy)
    (hg : ∀ (c : Nat) (v : Value), (g c).should_stop = false →
        ∃ b : Bool, (g c).eval (.val v) = ([Ev.stratIncr], .ok (g (c + 1), b)))
    (M i : Nat) (r : BaseRetry) (st : RetryState)
    (hlt : ∀ j : Nat, j < M → (g j).should_stop = false)
    (hstop : (g M).should_stop = true)
    (hst : st.strategy = none) (hr : r.strategies = [g 0])
    (he : r.eligible k = true) (hh : r.has_retry_exception_hook = false) :
    (Retry.loop (failFunc k) now (M + 1) r st i).outcome = .retryExausted (some k) ∧
    countInvoke (Retry.loop (failFunc k) now (M + 1) r st i).events = M + 1 ∧
    (Retry.loop (failFunc k) now (M + 1) r st i).retired ++
        ((Retry.loop (failFunc k) now (M + 1) r st i).state.strategy.toList ++
          (Retry.loop (failFunc k) now (M + 1) r st i).remaining.reverse) =
      [g M] := by
  have he' : BaseRetry.eligible { r with strategies := ([] : List Strategy) } k = true := by
    simpa [BaseRetry.eligible] using he
  cases M with
  | zero =>
      rw [loop_pull k now 0 i r st [] (g 0) hst (by simpa using hr) he]
      rw [loop_stop_at_entry k now 0 i { r with strategies := ([] : List Strategy) }
        { st with strategy := some (g 0) } (g 0) rfl hstop he']
      refine ⟨rfl, ?_, ?_⟩
      · simp [failIterEvs, countInvoke]
      · simp
  | succ M'' =>
      rw [loop_pull k now (M'' + 1) i r st [] (g 0) hst (by simpa using hr) he]
      have hb2 : ∀ j : Nat, 0 ≤ j → j < 0 + (M'' + 1) → (g j).should_stop = false := by
        intro j _ hj
        exact hlt j (by omega)
      have hstop2 : (g (0 + (M'' + 1))).should_stop = true := by
        have h0 : 0 + (M'' + 1) = M'' + 1 := by omega
        rw [h0]
        exact hstop
      rw [loop_drain k now g hg M'' 0 1 i
        { r with strategies := ([] : List Strategy) }
        { st with strategy := some (g 0) }
        hb2 hstop2 he' rfl]
      rw [loop_one_empty k now (i + (M'' + 1))]
      · refine ⟨rfl, ?_, ?_⟩
        · simp only [prependResult]
          rw [countInvoke_append, countInvoke_joinN, countInvoke_failIterEvs,
            countInvoke_failIterEvs]
          simp [countInvoke]
        · simp only [prependResult]
          simp
      · rfl
      · simp
      · exact he'

/-- C9: strategies are consulted only on a raised exception.  (a) An
attempt that returns normally — whatever the value — terminates the run
immediately with that value: one invocation, no strategy applied or
mutated.  (b) The boolean returned by a strategy's `eval` is discarded by
`exec_strategy`: a `StopWhenReturnValueStrategy` whose `eval` answers
`false` ("do not continue") on every application — here `expected` is the
`None` that `eval` receives after each failing attempt — still drives
`max_attempts` retries, so its signal neither causes nor prevents an
attempt. -/
theorem eval_bool_discarded :
    (∀ (r : BaseRetry) (f : Func) (now : Int) (fuel : Nat) (v : Value),
      Retry.invoke f 0 = .ok v →
        (Retry.run (fuel + 1) r f now).outcome = .ok v ∧
        countInvoke (Retry.run (fuel + 1) r f now).events = 1 ∧
        countIncr (Retry.run (fuel + 1) r f now).events = 0 ∧
        (Retry.run (fuel + 1) r f now).remaining = r.strategies ∧
        (Retry.run (fuel + 1) r f now).retired = []) ∧
    (∀ (M : Nat) (k : ExcKind) (now : Int),
      (∀ c : Nat, c < M →
        (StopWhenReturnValueStrategy.eval
            { expected := .val .none, max_attempts := some (M : Int), current_attempt := c }
            (.val .none)).2 =
          .ok ({ expected := .val .none, max_attempts := some (M : Int),
                 current_attempt := c + 1 }, false)) ∧
      (Retry.run (M + 1)
          (BaseRetry.make [stopWhenFam (.val .none) (M : Int) 0] none false)
          (failFunc k) now).outcome = .retryExausted (some k) ∧
      countInvoke (Retry.run (M + 1)
          (BaseRetry.make [stopWhenFam (.val .none) (M : Int) 0] none false)
          (failFunc k) now).events = M + 1) := by
  constructor
  · intro r f now fuel v h
    unfold Retry.run Retry.loop
    simp [Retry.execStep, h, BaseRetry.apply, countInvoke, countIncr]
  · intro M k now
    refine ⟨?_, ?_⟩
    · intro c hc
      have hs : StopWhenReturnValueStrategy.should_stop
          { expected := .val .none, max_attempts := some (M : Int),
            current_attempt := c } = false := by
        simp only [StopWhenReturnValueStrategy.should_stop, decide_eq_false_iff_not]
        push_cast
        omega
      simp [StopWhenReturnValueStrategy.eval, hs]
    · have he : (BaseRetry.make [stopWhenFam (.val .none) (M : Int) 0] none false).eligible
          k = true := by
        simp [BaseRetry.make, BaseRetry.eligible]
      have hh : (BaseRetry.make
          [stopWhenFam (.val .none) (M : Int) 0] none false).has_retry_exception_hook =
          false := by
        simp [BaseRetry.make]
      have hr : (BaseRetry.make [stopWhenFam (.val .none) (M : Int) 0] none false).strategies =
          [stopWhenFam (.val .none) (M : Int) 0] := by
        simp [BaseRetry.make]
      have h := loop_last_counting k now (stopWhenFam (.val .none) (M : Int))
        (stopWhenFam_step (.val .none) (M : Int)) M 0
        (BaseRetry.make [stopWhenFam (.val .none) (M : Int) 0] none false)
        { func := failFunc k, start_time := now }
        (fun j hj => stopWhenFam_stop_lt (.val .none) M j hj)
        (stopWhenFam_stop_ge (.val .none) M M (Nat.le_refl M))
        rfl hr he hh
      exact ⟨h.1, h.2.1⟩

/-- Witness for C9. -/
theorem eval_bool_discarded_witness :
    (Retry.run 3 (BaseRetry.make [.noop { attempts := 5 }] none false)
        { kind := .syncFunc, behavior := fun _ => .ok (.int 9) } 0).outcome = .ok (.int 9) ∧
    (Retry.run 3 (BaseRetry.make [stopWhenFam (.val .none) ((2 : Nat) : Int) 0] none false)
        (failFunc .keyError) 0).outcome = .retryExausted (some .keyError) ∧
    countInvoke (Retry.run 3
        (BaseRetry.make [stopWhenFam (.val .none) ((2 : Nat) : Int) 0] none false)
        (failFunc .keyError) 0).events = 3 := by
  have ha := eval_bool_discarded.1 (BaseRetry.make [.noop { attempts := 5 }] none false)
    { kind := .syncFunc, behavior := fun _ => .ok (.int 9) } 0 2 (.int 9) rfl
  have hb := eval_bool_discarded.2 2 .keyError 0
  exact ⟨ha.1, hb.2.1, hb.2.2⟩
